import Mathlib

/-!
Verification of the Theremin synthesizer core (src/Theramin.cpp).

The per-sample synthesis pipeline of `AudioThreadMain` is shallowly embedded
over the real numbers: every C++ `float` value is modelled by the real number
it denotes, `sinf` by `Real.sin`, `powf` by `Real.rpow`, and the float
constant `kTwoPi = 6.28318530717958647692f` by the real `2 * π` it
approximates.  Machine integers (`int`, `size_t`, `uint32_t`) are modelled by
`ℤ` and `ℕ` with explicit `% 2^32` where the C++ arithmetic wraps.  The two
delay `std::vector<float>` buffers are lists; the out-of-range behaviour that
C++ leaves undefined is modelled by `List.getD _ _ 0` and the in-bounds
invariant is proved separately.
-/

namespace Theremin

noncomputable section

/-- `static constexpr float kSampleRate = 48000.0f;` -/
def kSampleRate : ℝ := 48000

/-- `static constexpr float kTwoPi = 6.28318530717958647692f;` — the real
constant this float literal denotes up to rounding, `2π`. -/
def kTwoPi : ℝ := 2 * Real.pi

/-- `static constexpr float kMinHz = 100.0f;` -/
def kMinHz : ℝ := 100

/-- `static constexpr float kMaxHz = 2000.0f;` -/
def kMaxHz : ℝ := 2000

/-- `const float dt = 1.0f / sampleRate;` in `AudioThreadMain`
(the mix format rate, 48 kHz in this model). -/
def dt : ℝ := 1 / kSampleRate

/-- `const float hzSmoothCoeff = 0.05f;` -/
def hzSmoothCoeff : ℝ := 0.05

/-- `const float gainSmoothCoeff = 0.075f;` -/
def gainSmoothCoeff : ℝ := 0.075

/-- `fast_tanhf`: rational tanh approximation
`x * (27.0f + x2) / (27.0f + 9.0f * x2)` with `x2 = x * x`. -/
def fast_tanhf (x : ℝ) : ℝ :=
  x * (27 + x * x) / (27 + 9 * (x * x))

/-- `soft_saw`: `s = (phase / kTwoPi) * 2.0f - 1.0f; return fast_tanhf(0.8f * s);` -/
def soft_saw (phase : ℝ) : ℝ :=
  fast_tanhf (0.8 * ((phase / kTwoPi) * 2 - 1))

/-- `soft_tri`: `tri = 2.0f * fabsf((phase / kTwoPi) - 0.5f) - 1.0f; return fast_tanhf(0.8f * tri);` -/
def soft_tri (phase : ℝ) : ℝ :=
  fast_tanhf (0.8 * (2 * |phase / kTwoPi - 0.5| - 1))

/-- `sine`: `return sinf(phase);` -/
def sine (phase : ℝ) : ℝ := Real.sin phase

/-- The LCG seed update of `white_noise`:
`seed = 1664525u * seed + 1013904223u;` on `uint32_t`. -/
def lcg_next (seed : ℕ) : ℕ := (1664525 * seed + 1013904223) % 2 ^ 32

/-- The value `white_noise` returns for a given (already updated) seed:
`u = (seed & 0x00FFFFFF) / 16777216.0f; return 2.0f * u - 1.0f;`
(`seed & 0x00FFFFFF` is `seed % 2^24`). -/
def white_noise_val (seed : ℕ) : ℝ :=
  2 * (((seed % 2 ^ 24 : ℕ) : ℝ) / 16777216) - 1

/-- `smooth_step`: `return current + coeff * (target - current);` -/
def smooth_step (current target coeff : ℝ) : ℝ :=
  current + coeff * (target - current)

/-- Repeated application of `smooth_step` toward a fixed target
(`gSynth.smoothHz`/`gSynth.smoothGain` across consecutive samples whose
parameter snapshot does not change). -/
def smoothIter (k t c : ℝ) : ℕ → ℝ
  | 0 => c
  | n + 1 => smooth_step (smoothIter k t c n) t k

/-- `map_x_to_hz`: clamp `x/width` to `[0,1]`, then
`Hz = kMinHz * powf(kMaxHz/kMinHz, nx)`; returns `440.0f` when `width <= 0`. -/
def map_x_to_hz (x width : ℤ) : ℝ :=
  if width ≤ 0 then 440
  else
    let nx : ℝ := max 0 (min 1 ((x : ℝ) / (width : ℝ)))
    kMinHz * (kMaxHz / kMinHz) ^ nx

/-- `map_y_to_gain`: clamp `y/height` to `[0,1]` and invert; returns `0.0f`
when `height <= 0`. -/
def map_y_to_gain (y height : ℤ) : ℝ :=
  if height ≤ 0 then 0
  else 1 - max 0 (min 1 ((y : ℝ) / (height : ℝ)))

/-- `struct SynthParams`: one coherent read of the atomic control fields, as
observed by the render loop at the top of a sample iteration. -/
structure SynthParams where
  targetHz : ℝ
  targetGain : ℝ
  mode : ℤ
  mute : Bool
  vibratoDepth : ℝ

/-- The initial values of `SynthParams` (`440.0f, 0.0f, 1, false, 0.0f`). -/
def defaultParams : SynthParams :=
  { targetHz := 440, targetGain := 0, mode := 1, mute := false, vibratoDepth := 0 }

/-- `struct SynthState`: the render thread's private runtime state. -/
structure SynthState where
  phaseA : ℝ
  phaseB : ℝ
  smoothHz : ℝ
  smoothGain : ℝ
  vibratoPhase : ℝ
  delayL : ℝ
  delayR : ℝ
  delayBufL : List ℝ
  delayBufR : List ℝ
  delayIndex : ℕ

/-- The single conditional wraparound used after every phase advance:
`if (phase >= kTwoPi) phase -= kTwoPi;`. -/
def wrapPhase (p : ℝ) : ℝ :=
  if p ≥ kTwoPi then p - kTwoPi else p

/-- The vibrato term of line 191:
`(vibAmt > 0.0f) ? 0.01f * vibAmt * sinf(vibratoPhase) : 0.0f`. -/
def vibratoVal (vibAmt vibPhase : ℝ) : ℝ :=
  if vibAmt > 0 then 0.01 * vibAmt * Real.sin vibPhase else 0

/-- The vibrato-modulated carrier frequency of line 193:
`hz = smoothHz * (1.0f + vibrato)`. -/
def carrierHz (smoothHz vibAmt vibPhase : ℝ) : ℝ :=
  smoothHz * (1 + vibratoVal vibAmt vibPhase)

/-- Carrier phase increment, line 194: `incA = kTwoPi * hz * dt`. -/
def phaseIncA (hz : ℝ) : ℝ := kTwoPi * hz * dt

/-- Modulator phase increment, line 195: `incB = kTwoPi * (hz * 1.997f) * dt`. -/
def phaseIncB (hz : ℝ) : ℝ := kTwoPi * (hz * 1.997) * dt

/-- The waveform mode switch of lines 208–227, as a function of the mode, the
two (already advanced) oscillator phases and the noise sample drawn for this
iteration. -/
def waveform (mode : ℤ) (phaseA phaseB noise : ℝ) : ℝ :=
  let aSine := sine phaseA
  let bSine := sine phaseB
  if mode = 1 then aSine
  else if mode = 2 then 0.70 * aSine + 0.45 * (aSine * bSine)
  else if mode = 3 then fast_tanhf (0.85 * aSine + 0.25 * noise)
  else if mode = 4 then 0.6 * soft_saw phaseA + 0.4 * soft_tri phaseA
  else aSine

/-- Everything one iteration of the per-sample loop (lines 176–247) produces:
the updated state, the applied gain, the dry samples and the stereo outputs. -/
structure StepOut where
  state : SynthState
  gain : ℝ
  dryL : ℝ
  dryR : ℝ
  outL : ℝ
  outR : ℝ

/-- One iteration of the per-sample loop of `AudioThreadMain`
(lines 176–247): smoothing, vibrato, phase advance, waveform switch,
mute/gain, stereo decorrelation.  `p` is the parameter snapshot read at the
top of the iteration and `noise` the value `white_noise()` would return in
mode 3. -/
def sampleStep (p : SynthParams) (noise : ℝ) (s : SynthState) : StepOut :=
  let smoothHz := smooth_step s.smoothHz p.targetHz hzSmoothCoeff
  let smoothGain := smooth_step s.smoothGain p.targetGain gainSmoothCoeff
  let vibratoPhase := wrapPhase (s.vibratoPhase + kTwoPi * 5.5 * dt)
  let hz := carrierHz smoothHz p.vibratoDepth vibratoPhase
  let phaseA := wrapPhase (s.phaseA + phaseIncA hz)
  let phaseB := wrapPhase (s.phaseB + phaseIncB hz)
  let sample := waveform p.mode phaseA phaseB noise
  let gain := if p.mute then 0 else smoothGain
  let dryL := sample * gain
  let dryR := sample * gain
  let di := s.delayIndex
  let dL := s.delayBufL.getD di 0
  let dR := s.delayBufR.getD di 0
  let bufL := s.delayBufL.set di (0.85 * dL + 0.15 * dryL)
  let bufR := s.delayBufR.set di (0.85 * dR + 0.15 * dryR)
  { state :=
      { phaseA := phaseA
        phaseB := phaseB
        smoothHz := smoothHz
        smoothGain := smoothGain
        vibratoPhase := vibratoPhase
        delayL := s.delayL
        delayR := s.delayR
        delayBufL := bufL
        delayBufR := bufR
        delayIndex := (di + 1) % bufL.length }
    gain := gain
    dryL := dryL
    dryR := dryR
    outL := 0.85 * dryL + 0.15 * dR
    outR := 0.85 * dryR + 0.15 * dL }

/-- Iterating the per-sample loop over a list of per-sample inputs (one
parameter snapshot and one noise draw per synthesized frame). -/
def multiStep (inputs : List (SynthParams × ℝ)) (s : SynthState) : SynthState :=
  inputs.foldl (fun st pn => (sampleStep pn.1 pn.2 st).state) s

/-- `const size_t delaySamples = size_t(sampleRate * 0.012f);` — 12 ms of
samples at 48 kHz (the `size_t` cast truncates). -/
def delaySamples : ℕ := ⌊kSampleRate * 0.012⌋₊

/-- The runtime state at the top of the render loop: the `SynthState` default
member initializers plus the buffer setup of lines 146–149. -/
def initState : SynthState :=
  { phaseA := 0
    phaseB := 0
    smoothHz := 440
    smoothGain := 0
    vibratoPhase := 0
    delayL := 0
    delayR := 0
    delayBufL := List.replicate delaySamples 0
    delayBufR := List.replicate delaySamples 0
    delayIndex := 0 }

/-- What the render loop does after a wake on the success path: either keep
waiting (`continue`) or leave the `while` loop. -/
inductive LoopAction where
  | continueRunning : LoopAction
  | exitLoop : LoopAction
deriving DecidableEq

/-- Synthesize `n` frames, drawing the per-frame parameter snapshot and noise
value from the stream `inp`, returning the final state and the interleaved
stereo frames in order. -/
def synthFrames : ℕ → (ℕ → SynthParams × ℝ) → SynthState → SynthState × List (ℝ × ℝ)
  | 0, _, s => (s, [])
  | n + 1, inp, s =>
    let o := sampleStep (inp 0).1 (inp 0).2 s
    let rest := synthFrames n (fun i => inp (i + 1)) o.state
    (rest.1, (o.outL, o.outR) :: rest.2)

/-- One successful wake of the render loop (lines 163–251):
`framesToWrite = bufferFrames - padding`; when it is zero the iteration
`continue`s without touching any state, otherwise exactly `framesToWrite`
frames are synthesized and committed.  Device-protocol failures (which
`break` out of the loop) are outside this success-path model. -/
def renderWake (bufferFrames padding : ℕ) (inp : ℕ → SynthParams × ℝ)
    (s : SynthState) : SynthState × List (ℝ × ℝ) × LoopAction :=
  let framesToWrite := bufferFrames - padding
  if framesToWrite = 0 then (s, [], LoopAction.continueRunning)
  else
    let r := synthFrames framesToWrite inp s
    (r.1, r.2, LoopAction.continueRunning)

/-- The parameter-bus update performed by the `WM_MOUSEMOVE` handler of
`WndProc` (lines 270–281): store the mapped frequency and gain targets and
set the vibrato depth from the shift key. -/
def onMouseMove (p : SynthParams) (x y width height : ℤ) (shift : Bool) :
    SynthParams :=
  { p with
    targetHz := map_x_to_hz x width
    targetGain := map_y_to_gain y height
    vibratoDepth := if shift then 1 else 0 }

/-- The phase invariant of the spec: all three phase accumulators stay in
`[0, 2π)`. -/
def PhaseInv (s : SynthState) : Prop :=
  (0 ≤ s.phaseA ∧ s.phaseA < kTwoPi) ∧
  (0 ≤ s.phaseB ∧ s.phaseB < kTwoPi) ∧
  (0 ≤ s.vibratoPhase ∧ s.vibratoPhase < kTwoPi)

/-- The smoothed frequency stays in the control range `[100, 2000]` Hz. -/
def HzInv (s : SynthState) : Prop :=
  kMinHz ≤ s.smoothHz ∧ s.smoothHz ≤ kMaxHz

/-- A parameter snapshot with an in-range frequency target and an in-range
vibrato depth (what the control interface stores, by `map_x_to_hz` and the
shift-key depth). -/
def ParamOK (p : SynthParams) : Prop :=
  kMinHz ≤ p.targetHz ∧ p.targetHz ≤ kMaxHz ∧
  0 ≤ p.vibratoDepth ∧ p.vibratoDepth ≤ 1

/-- The delay-line invariant: both circular buffers keep their construction
length and the shared cursor stays strictly inside it. -/
def DelayInv (s : SynthState) : Prop :=
  s.delayBufL.length = delaySamples ∧ s.delayBufR.length = delaySamples ∧
  s.delayIndex < delaySamples

/-- The spec's soft saturation, written from its words: a rational
approximation of the hyperbolic tangent, `x·(27+x²)/(27+9x²)`. -/
def softsat_spec (x : ℝ) : ℝ := x * (27 + x ^ 2) / (27 + 9 * x ^ 2)

end

/-! ## Basic bounds on the shared building blocks -/

lemma kTwoPi_pos : 0 < kTwoPi := Real.two_pi_pos

lemma abs_sin_le_one (x : ℝ) : |Real.sin x| ≤ 1 :=
  abs_le.mpr ⟨Real.neg_one_le_sin x, Real.sin_le_one x⟩

/-- The rational saturator never increases magnitude: the ratio
`(27 + x²)/(27 + 9x²)` lies in `[0, 1]`. -/
lemma abs_fast_tanhf_le (x : ℝ) : |fast_tanhf x| ≤ |x| := by
  have hsq : (0 : ℝ) ≤ x * x := mul_self_nonneg x
  have hden : (0 : ℝ) < 27 + 9 * (x * x) := by nlinarith
  have hfrac0 : (0 : ℝ) ≤ (27 + x * x) / (27 + 9 * (x * x)) :=
    div_nonneg (by nlinarith) (le_of_lt hden)
  have hfrac1 : (27 + x * x) / (27 + 9 * (x * x)) ≤ 1 := by
    rw [div_le_one hden]; nlinarith [mul_self_nonneg x]
  have : fast_tanhf x = x * ((27 + x * x) / (27 + 9 * (x * x))) := by
    unfold fast_tanhf; ring
  rw [this, abs_mul, abs_of_nonneg hfrac0]
  calc |x| * ((27 + x * x) / (27 + 9 * (x * x))) ≤ |x| * 1 :=
        mul_le_mul_of_nonneg_left hfrac1 (abs_nonneg x)
    _ = |x| := mul_one _

/-- Whatever the seed, `white_noise` returns a value in `[-1, 1)`: the low
24 bits divided by `2^24` lie in `[0, 1)`. -/
lemma white_noise_val_mem (seed : ℕ) :
    -1 ≤ white_noise_val seed ∧ white_noise_val seed < 1 := by
  unfold white_noise_val
  have h1 : (seed % 2 ^ 24 : ℕ) < 2 ^ 24 := Nat.mod_lt _ (by norm_num)
  have h2 : ((seed % 2 ^ 24 : ℕ) : ℝ) < 16777216 := by
    exact_mod_cast lt_of_lt_of_le h1 (by norm_num)
  have h0 : (0 : ℝ) ≤ ((seed % 2 ^ 24 : ℕ) : ℝ) := Nat.cast_nonneg _
  have hu0 : (0 : ℝ) ≤ ((seed % 2 ^ 24 : ℕ) : ℝ) / 16777216 :=
    div_nonneg h0 (by norm_num)
  have hu1 : ((seed % 2 ^ 24 : ℕ) : ℝ) / 16777216 < 1 :=
    (div_lt_one (by norm_num)).mpr h2
  constructor <;> [linarith; linarith]

/-- On one period the saw ramp sits in `[-1, 1)`, so the saturated saw is
bounded by `0.8`. -/
lemma abs_soft_saw_le (phase : ℝ) (h0 : 0 ≤ phase) (h1 : phase < kTwoPi) :
    |soft_saw phase| ≤ 0.8 := by
  have h2pi := kTwoPi_pos
  have hr0 : 0 ≤ phase / kTwoPi := div_nonneg h0 (le_of_lt h2pi)
  have hr1 : phase / kTwoPi < 1 := (div_lt_one h2pi).mpr h1
  have hs : |(phase / kTwoPi) * 2 - 1| ≤ 1 :=
    abs_le.mpr ⟨by nlinarith, by nlinarith⟩
  have h := abs_fast_tanhf_le (0.8 * ((phase / kTwoPi) * 2 - 1))
  rw [abs_mul, abs_of_nonneg (by norm_num : (0 : ℝ) ≤ 0.8)] at h
  unfold soft_saw
  nlinarith [h, hs]

/-- On one period the triangle sits in `[-1, 0]`, so the saturated triangle
is bounded by `0.8`. -/
lemma abs_soft_tri_le (phase : ℝ) (h0 : 0 ≤ phase) (h1 : phase < kTwoPi) :
    |soft_tri phase| ≤ 0.8 := by
  have h2pi := kTwoPi_pos
  have hr0 : 0 ≤ phase / kTwoPi := div_nonneg h0 (le_of_lt h2pi)
  have hr1 : phase / kTwoPi < 1 := (div_lt_one h2pi).mpr h1
  have hq : |phase / kTwoPi - 0.5| ≤ 0.5 :=
    abs_le.mpr ⟨by nlinarith, by nlinarith⟩
  have hq0 : 0 ≤ |phase / kTwoPi - 0.5| := abs_nonneg _
  have ht : |2 * |phase / kTwoPi - 0.5| - 1| ≤ 1 :=
    abs_le.mpr ⟨by nlinarith, by nlinarith⟩
  have h := abs_fast_tanhf_le (0.8 * (2 * |phase / kTwoPi - 0.5| - 1))
  rw [abs_mul, abs_of_nonneg (by norm_num : (0 : ℝ) ≤ 0.8)] at h
  unfold soft_tri
  nlinarith [h, ht]

/-- One smoothing update lands between the current value and the target. -/
lemma smooth_step_between (c t k : ℝ) (hk0 : 0 ≤ k) (hk1 : k ≤ 1) :
    min c t ≤ smooth_step c t k ∧ smooth_step c t k ≤ max c t := by
  unfold smooth_step
  rcases le_total c t with h | h
  · constructor
    · calc min c t ≤ c := min_le_left _ _
        _ ≤ c + k * (t - c) := by nlinarith
    · calc c + k * (t - c) ≤ t := by nlinarith
        _ ≤ max c t := le_max_right _ _
  · constructor
    · calc min c t ≤ t := min_le_right _ _
        _ ≤ c + k * (t - c) := by nlinarith
    · calc c + k * (t - c) ≤ c := by nlinarith
        _ ≤ max c t := le_max_left _ _

/-- One smoothing update contracts the distance to the target by the exact
factor `1 - k`. -/
lemma smooth_step_dist (c t k : ℝ) (hk1 : k ≤ 1) :
    |t - smooth_step c t k| = (1 - k) * |t - c| := by
  have h : t - smooth_step c t k = (1 - k) * (t - c) := by
    unfold smooth_step; ring
  rw [h, abs_mul, abs_of_nonneg (by linarith : (0 : ℝ) ≤ 1 - k)]

/-- A smoothing update keeps the value inside any interval containing both
the current value and the target. -/
lemma smooth_step_mem_Icc (c t k lo hi : ℝ) (hk0 : 0 ≤ k) (hk1 : k ≤ 1)
    (hc : lo ≤ c ∧ c ≤ hi) (ht : lo ≤ t ∧ t ≤ hi) :
    lo ≤ smooth_step c t k ∧ smooth_step c t k ≤ hi := by
  obtain ⟨h1, h2⟩ := smooth_step_between c t k hk0 hk1
  constructor
  · exact le_trans (le_min hc.1 ht.1) h1
  · exact le_trans h2 (max_le hc.2 ht.2)

/-- The single conditional wraparound subtraction keeps a phase in
`[0, 2π)` whenever the increment is in `[0, 2π)`. -/
lemma wrapPhase_mem (p inc : ℝ) (hp0 : 0 ≤ p) (hp1 : p < kTwoPi)
    (hi0 : 0 ≤ inc) (hi1 : inc < kTwoPi) :
    0 ≤ wrapPhase (p + inc) ∧ wrapPhase (p + inc) < kTwoPi := by
  unfold wrapPhase
  by_cases h : p + inc ≥ kTwoPi
  · rw [if_pos h]
    constructor
    · linarith
    · linarith
  · rw [if_neg h]
    push_neg at h
    exact ⟨by linarith, h⟩

/-- A per-sample increment `2π·c·dt` is in `[0, 2π)` whenever the frequency
term `c` is in `[0, 48000)` — one sample never advances a phase by a full
cycle. -/
lemma inc_mem (c : ℝ) (h0 : 0 ≤ c) (h1 : c < 48000) :
    0 ≤ kTwoPi * c * dt ∧ kTwoPi * c * dt < kTwoPi := by
  have h2pi := kTwoPi_pos
  unfold dt kSampleRate
  constructor
  · have : (0 : ℝ) ≤ 1 / 48000 := by norm_num
    nlinarith
  · nlinarith

/-- The vibrato term is at most 1% in magnitude for a depth in `[0, 1]`. -/
lemma abs_vibratoVal_le (d vp : ℝ) (h0 : 0 ≤ d) (h1 : d ≤ 1) :
    |vibratoVal d vp| ≤ 0.01 := by
  unfold vibratoVal
  by_cases h : d > 0
  · rw [if_pos h, abs_mul, abs_mul,
      abs_of_nonneg (by norm_num : (0 : ℝ) ≤ 0.01), abs_of_nonneg h0]
    have hs := abs_sin_le_one vp
    have hs0 : 0 ≤ |Real.sin vp| := abs_nonneg _
    nlinarith
  · rw [if_neg h]
    norm_num

/-- The vibrato-modulated carrier frequency stays in `[99, 2020]` when the
smoothed frequency is in `[100, 2000]` and the depth in `[0, 1]`. -/
lemma carrierHz_bounds (sh d vp : ℝ) (hlo : kMinHz ≤ sh) (hhi : sh ≤ kMaxHz)
    (hd0 : 0 ≤ d) (hd1 : d ≤ 1) :
    99 ≤ carrierHz sh d vp ∧ carrierHz sh d vp ≤ 2020 := by
  have hv := abs_vibratoVal_le d vp hd0 hd1
  obtain ⟨hv1, hv2⟩ := abs_le.mp hv
  unfold carrierHz
  unfold kMinHz at hlo
  unfold kMaxHz at hhi
  constructor <;> nlinarith

/-- One iteration of the per-sample loop keeps all three phases in `[0, 2π)`
and the smoothed frequency in `[100, 2000]`, given an in-range parameter
snapshot. -/
lemma sampleStep_inv (p : SynthParams) (n : ℝ) (s : SynthState)
    (hs : PhaseInv s) (hh : HzInv s) (hp : ParamOK p) :
    PhaseInv (sampleStep p n s).state ∧ HzInv (sampleStep p n s).state := by
  obtain ⟨hA, hB, hV⟩ := hs
  obtain ⟨hh1, hh2⟩ := hh
  obtain ⟨hp1, hp2, hp3, hp4⟩ := hp
  have hk0 : (0 : ℝ) ≤ hzSmoothCoeff := by norm_num [hzSmoothCoeff]
  have hk1 : hzSmoothCoeff ≤ 1 := by norm_num [hzSmoothCoeff]
  have hsh := smooth_step_mem_Icc s.smoothHz p.targetHz hzSmoothCoeff
    kMinHz kMaxHz hk0 hk1 ⟨hh1, hh2⟩ ⟨hp1, hp2⟩
  have hvibinc := inc_mem 5.5 (by norm_num) (by norm_num)
  have hvp := wrapPhase_mem s.vibratoPhase (kTwoPi * 5.5 * dt)
    hV.1 hV.2 hvibinc.1 hvibinc.2
  have hz := carrierHz_bounds (smooth_step s.smoothHz p.targetHz hzSmoothCoeff)
    p.vibratoDepth (wrapPhase (s.vibratoPhase + kTwoPi * 5.5 * dt))
    hsh.1 hsh.2 hp3 hp4
  set f := carrierHz (smooth_step s.smoothHz p.targetHz hzSmoothCoeff)
    p.vibratoDepth (wrapPhase (s.vibratoPhase + kTwoPi * 5.5 * dt)) with hf
  have hincA : 0 ≤ phaseIncA f ∧ phaseIncA f < kTwoPi := by
    unfold phaseIncA
    exact inc_mem f (by linarith [hz.1]) (by linarith [hz.2])
  have hincB : 0 ≤ phaseIncB f ∧ phaseIncB f < kTwoPi := by
    unfold phaseIncB
    exact inc_mem (f * 1.997) (by nlinarith [hz.1]) (by nlinarith [hz.2, hz.1])
  have hpa := wrapPhase_mem s.phaseA (phaseIncA f) hA.1 hA.2 hincA.1 hincA.2
  have hpb := wrapPhase_mem s.phaseB (phaseIncB f) hB.1 hB.2 hincB.1 hincB.2
  exact ⟨⟨hpa, hpb, hvp⟩, hsh⟩

/-- The invariant of `sampleStep_inv`, iterated over any input stream. -/
lemma multiStep_inv (inputs : List (SynthParams × ℝ)) (s : SynthState)
    (hs : PhaseInv s) (hh : HzInv s)
    (hp : ∀ pr ∈ inputs, ParamOK pr.1) :
    PhaseInv (multiStep inputs s) ∧ HzInv (multiStep inputs s) := by
  induction inputs generalizing s with
  | nil => exact ⟨hs, hh⟩
  | cons head tail ih =>
    have h1 := sampleStep_inv head.1 head.2 s hs hh (hp head (by simp))
    have h2 := ih (sampleStep head.1 head.2 s).state h1.1 h1.2
      (fun pr hpr => hp pr (by simp [hpr]))
    simpa [multiStep] using h2

/-- The runtime state at render-loop start satisfies the phase invariant. -/
lemma initState_phaseInv : PhaseInv initState := by
  refine ⟨⟨le_refl 0, ?_⟩, ⟨le_refl 0, ?_⟩, ⟨le_refl 0, ?_⟩⟩ <;> exact kTwoPi_pos

/-- The runtime state at render-loop start has an in-range smoothed
frequency (440 Hz). -/
lemma initState_hzInv : HzInv initState := by
  constructor <;> norm_num [initState, kMinHz, kMaxHz]

/-! ## The claims -/

/-- Claim C1: for every mode in `{1,2,3,4}`, phases in `[0, 2π)` and a noise
draw in `[-1, 1)`, the mono sample of the waveform switch lies in
`[-1.2, 1.2]`; and `white_noise` indeed only produces values in `[-1, 1)`,
whatever its seed. -/
theorem claim_C1 (mode : ℤ) (a b n : ℝ)
    (hm : mode ∈ ({1, 2, 3, 4} : Set ℤ))
    (ha : 0 ≤ a ∧ a < kTwoPi) (hb : 0 ≤ b ∧ b < kTwoPi)
    (hn : -1 ≤ n ∧ n < 1) :
    |waveform mode a b n| ≤ 1.2 ∧
    ∀ seed : ℕ, -1 ≤ white_noise_val seed ∧ white_noise_val seed < 1 := by
  refine ⟨?_, white_noise_val_mem⟩
  have hsa := abs_sin_le_one a
  have hsb := abs_sin_le_one b
  have hsa0 : 0 ≤ |Real.sin a| := abs_nonneg _
  have hsb0 : 0 ≤ |Real.sin b| := abs_nonneg _
  have hnn : |n| ≤ 1 := abs_le.mpr ⟨hn.1, le_of_lt hn.2⟩
  simp only [Set.mem_insert_iff, Set.mem_singleton_iff] at hm
  rcases hm with h | h | h | h <;> subst h
  · -- mode 1: pure sine
    have h : waveform 1 a b n = Real.sin a := by simp [waveform, sine]
    rw [h]; linarith
  · -- mode 2: sine plus ring modulation, bound 0.70 + 0.45 = 1.15
    have h : waveform 2 a b n
        = 0.70 * Real.sin a + 0.45 * (Real.sin a * Real.sin b) := by
      simp [waveform, sine]
    rw [h]
    have habs := abs_add (0.70 * Real.sin a) (0.45 * (Real.sin a * Real.sin b))
    rw [abs_mul, abs_mul, abs_mul,
      abs_of_nonneg (by norm_num : (0 : ℝ) ≤ 0.70),
      abs_of_nonneg (by norm_num : (0 : ℝ) ≤ 0.45)] at habs
    nlinarith [habs]
  · -- mode 3: saturated sine-plus-noise, |pre| ≤ 1.1
    have h : waveform 3 a b n = fast_tanhf (0.85 * Real.sin a + 0.25 * n) := by
      simp [waveform, sine]
    rw [h]
    have hn0 : 0 ≤ |n| := abs_nonneg n
    have habs := abs_add (0.85 * Real.sin a) (0.25 * n)
    rw [abs_mul, abs_mul,
      abs_of_nonneg (by norm_num : (0 : ℝ) ≤ 0.85),
      abs_of_nonneg (by norm_num : (0 : ℝ) ≤ 0.25)] at habs
    have hft := abs_fast_tanhf_le (0.85 * Real.sin a + 0.25 * n)
    nlinarith [habs, hft]
  · -- mode 4: saw/tri blend, bound 0.6·0.8 + 0.4·0.8 = 0.8
    have hsw := abs_soft_saw_le a ha.1 ha.2
    have htr := abs_soft_tri_le a ha.1 ha.2
    have h : waveform 4 a b n = 0.6 * soft_saw a + 0.4 * soft_tri a := by
      norm_num [waveform]
    rw [h]
    have habs := abs_add (0.6 * soft_saw a) (0.4 * soft_tri a)
    rw [abs_mul, abs_mul,
      abs_of_nonneg (by norm_num : (0 : ℝ) ≤ 0.6),
      abs_of_nonneg (by norm_num : (0 : ℝ) ≤ 0.4)] at habs
    nlinarith [habs]

/-- Concrete instance of C1 at mode 1 with zero phases and zero noise. -/
theorem claim_C1_witness :
    (1 : ℤ) ∈ ({1, 2, 3, 4} : Set ℤ) ∧
    (|waveform 1 0 0 0| ≤ 1.2 ∧
      ∀ seed : ℕ, -1 ≤ white_noise_val seed ∧ white_noise_val seed < 1) :=
  ⟨by norm_num, claim_C1 1 0 0 0 (by norm_num)
    ⟨le_refl 0, kTwoPi_pos⟩ ⟨le_refl 0, kTwoPi_pos⟩ (by norm_num)⟩

/-- Claim C2: for every coefficient `k ∈ (0,1)`, `smooth_step c t k` lies
between `c` and `t` (never overshoots), and iterating with a fixed target
contracts the distance to the target by the exact factor `1 - k` each step,
so the iterates approach `t` monotonically. -/
theorem claim_C2 (c t k : ℝ) (hk0 : 0 < k) (hk1 : k < 1) :
    (min c t ≤ smooth_step c t k ∧ smooth_step c t k ≤ max c t) ∧
    (∀ n, |t - smoothIter k t c (n + 1)| = (1 - k) * |t - smoothIter k t c n|) ∧
    (∀ n, |t - smoothIter k t c n| = (1 - k) ^ n * |t - c|) ∧
    (∀ n, |t - smoothIter k t c (n + 1)| ≤ |t - smoothIter k t c n|) := by
  have hk0' : 0 ≤ k := le_of_lt hk0
  have hk1' : k ≤ 1 := le_of_lt hk1
  have hstep : ∀ n, |t - smoothIter k t c (n + 1)|
      = (1 - k) * |t - smoothIter k t c n| := by
    intro n
    exact smooth_step_dist (smoothIter k t c n) t k hk1'
  refine ⟨smooth_step_between c t k hk0' hk1', hstep, ?_, ?_⟩
  · intro n
    induction n with
    | zero => simp [smoothIter]
    | succ m ih => rw [hstep m, ih]; ring
  · intro n
    rw [hstep n]
    have h1 : (1 - k) * |t - smoothIter k t c n| ≤ 1 * |t - smoothIter k t c n| :=
      mul_le_mul_of_nonneg_right (by linarith) (abs_nonneg _)
    simpa using h1

/-- Concrete instance of C2 at `c = 0`, `t = 1`, `k = 1/2`. -/
theorem claim_C2_witness :
    (0 : ℝ) < 1 / 2 ∧ (1 / 2 : ℝ) < 1 ∧
    (min (0 : ℝ) 1 ≤ smooth_step 0 1 (1 / 2) ∧
      smooth_step 0 1 (1 / 2) ≤ max (0 : ℝ) 1) :=
  ⟨by norm_num, by norm_num,
    (claim_C2 0 1 (1 / 2) (by norm_num) (by norm_num)).1⟩

/-- Claim C5: the waveform switch is a pure function matching the spec's
table on modes 1–4 — mode 2 being `0.70·sin c + 0.45·sin c·sin m`, mode 3
the rational soft saturation of `0.85·sin c + 0.25·noise` — and every mode
outside `{1,2,3,4}` falls back to mode 1's `sin c`, never an error. -/
theorem claim_C5 (a b n : ℝ) (m : ℤ) (hm : m ∉ ({1, 2, 3, 4} : Set ℤ)) :
    waveform 1 a b n = Real.sin a ∧
    waveform 2 a b n = 0.70 * Real.sin a + 0.45 * Real.sin a * Real.sin b ∧
    waveform 3 a b n = softsat_spec (0.85 * Real.sin a + 0.25 * n) ∧
    waveform 4 a b n = 0.6 * soft_saw a + 0.4 * soft_tri a ∧
    waveform m a b n = Real.sin a := by
  simp only [Set.mem_insert_iff, Set.mem_singleton_iff, not_or] at hm
  obtain ⟨h1, h2, h3, h4⟩ := hm
  refine ⟨?_, ?_, ?_, ?_, ?_⟩
  · simp [waveform, sine]
  · simp [waveform, sine]; ring
  · simp only [waveform, sine, softsat_spec, fast_tanhf]
    norm_num
    ring_nf
  · norm_num [waveform]
  · simp [waveform, sine, h1, h2, h3, h4]

/-- Concrete instance of C5's fallback hypothesis at `m = 5`. -/
theorem claim_C5_witness :
    (5 : ℤ) ∉ ({1, 2, 3, 4} : Set ℤ) ∧ waveform 5 0 0 0 = Real.sin 0 :=
  ⟨by norm_num, (claim_C5 0 0 0 5 (by norm_num)).2.2.2.2⟩

/-- Claim C3: with mute asserted the applied gain is exactly zero and both
dry samples are zero, while the smoothed-gain state still advances exactly
as it would unmuted; an unmuted step applies the pre-existing smoothed
level (one smoothing update toward the target), not a restart from zero. -/
theorem claim_C3 (p : SynthParams) (n : ℝ) (s : SynthState) :
    (sampleStep { p with mute := true } n s).gain = 0 ∧
    (sampleStep { p with mute := true } n s).dryL = 0 ∧
    (sampleStep { p with mute := true } n s).dryR = 0 ∧
    (sampleStep { p with mute := true } n s).state.smoothGain
      = smooth_step s.smoothGain p.targetGain gainSmoothCoeff ∧
    (sampleStep { p with mute := true } n s).state.smoothGain
      = (sampleStep { p with mute := false } n s).state.smoothGain ∧
    (sampleStep { p with mute := false } n s).gain
      = smooth_step s.smoothGain p.targetGain gainSmoothCoeff := by
  simp [sampleStep]

/-- Claim C6: each sample reads the old delayed values at the cursor, writes
back `0.85·old + 0.15·dry` in place on both channels, advances the cursor by
one modulo the buffer length, and crossfeeds 15% of the opposite channel's
old delayed value into each 85%-dry output. -/
theorem claim_C6 (p : SynthParams) (n : ℝ) (s : SynthState) :
    (sampleStep p n s).outL
      = 0.85 * (sampleStep p n s).dryL + 0.15 * s.delayBufR.getD s.delayIndex 0 ∧
    (sampleStep p n s).outR
      = 0.85 * (sampleStep p n s).dryR + 0.15 * s.delayBufL.getD s.delayIndex 0 ∧
    (sampleStep p n s).state.delayBufL
      = s.delayBufL.set s.delayIndex
          (0.85 * s.delayBufL.getD s.delayIndex 0 + 0.15 * (sampleStep p n s).dryL) ∧
    (sampleStep p n s).state.delayBufR
      = s.delayBufR.set s.delayIndex
          (0.85 * s.delayBufR.getD s.delayIndex 0 + 0.15 * (sampleStep p n s).dryR) ∧
    (sampleStep p n s).state.delayIndex = (s.delayIndex + 1) % s.delayBufL.length := by
  refine ⟨rfl, rfl, rfl, rfl, ?_⟩
  simp [sampleStep, List.length_set]

/-- Claim C4: from phases in `[0, 2π)` and a smoothed frequency in
`[100, 2000]` Hz, with every parameter snapshot keeping an in-range target
frequency and vibrato depth (so each per-sample increment is nonnegative and
below `2π`), one step's single conditional wraparound subtraction returns
all three phases to `[0, 2π)`, and so does any number of steps. -/
theorem claim_C4 (s : SynthState) (hs : PhaseInv s) (hh : HzInv s) :
    (∀ (p : SynthParams) (n : ℝ), ParamOK p →
      PhaseInv (sampleStep p n s).state) ∧
    (∀ inputs : List (SynthParams × ℝ), (∀ pr ∈ inputs, ParamOK pr.1) →
      PhaseInv (multiStep inputs s) ∧ HzInv (multiStep inputs s)) :=
  ⟨fun p n hp => (sampleStep_inv p n s hs hh hp).1,
    fun inputs hp => multiStep_inv inputs s hs hh hp⟩

/-- Concrete instance of C4 at the initial state with one default-parameter
step. -/
theorem claim_C4_witness :
    PhaseInv (multiStep [(defaultParams, 0)] initState) ∧
    HzInv (multiStep [(defaultParams, 0)] initState) :=
  (claim_C4 initState initState_phaseInv initState_hzInv).2
    [(defaultParams, 0)]
    (by
      intro pr hpr
      simp only [List.mem_singleton] at hpr
      subst hpr
      refine ⟨?_, ?_, ?_, ?_⟩ <;> norm_num [defaultParams, kMinHz, kMaxHz])

/-- Claim C7: control input is clamped, never rejected — for any mouse
coordinates and positive client size, the stored frequency target is in
`[100, 2000]` Hz and the stored gain target in `[0, 1]` (and `map_x_to_hz`,
`map_y_to_gain` are total, so no control input raises an error). -/
theorem claim_C7 (p : SynthParams) (x y width height : ℤ) (shift : Bool)
    (hw : 0 < width) (hh : 0 < height) :
    kMinHz ≤ (onMouseMove p x y width height shift).targetHz ∧
    (onMouseMove p x y width height shift).targetHz ≤ kMaxHz ∧
    0 ≤ (onMouseMove p x y width height shift).targetGain ∧
    (onMouseMove p x y width height shift).targetGain ≤ 1 := by
  have hxw : ¬ width ≤ 0 := not_le.mpr hw
  have hyh : ¬ height ≤ 0 := not_le.mpr hh
  have hnx0 : (0 : ℝ) ≤ max 0 (min 1 ((x : ℝ) / (width : ℝ))) := le_max_left _ _
  have hnx1 : max 0 (min 1 ((x : ℝ) / (width : ℝ))) ≤ 1 :=
    max_le (by norm_num) (min_le_left _ _)
  have hny0 : (0 : ℝ) ≤ max 0 (min 1 ((y : ℝ) / (height : ℝ))) := le_max_left _ _
  have hny1 : max 0 (min 1 ((y : ℝ) / (height : ℝ))) ≤ 1 :=
    max_le (by norm_num) (min_le_left _ _)
  have hratio : kMaxHz / kMinHz = (20 : ℝ) := by norm_num [kMinHz, kMaxHz]
  have hbase : (1 : ℝ) ≤ 20 := by norm_num
  refine ⟨?_, ?_, ?_, ?_⟩
  · show kMinHz ≤ map_x_to_hz x width
    unfold map_x_to_hz
    rw [if_neg hxw, hratio]
    have h1 : (20 : ℝ) ^ (0 : ℝ) ≤ 20 ^ max 0 (min 1 ((x : ℝ) / (width : ℝ))) :=
      Real.rpow_le_rpow_of_exponent_le hbase hnx0
    rw [Real.rpow_zero] at h1
    unfold kMinHz
    nlinarith
  · show map_x_to_hz x width ≤ kMaxHz
    unfold map_x_to_hz
    rw [if_neg hxw, hratio]
    have h1 : (20 : ℝ) ^ max 0 (min 1 ((x : ℝ) / (width : ℝ))) ≤ 20 ^ (1 : ℝ) :=
      Real.rpow_le_rpow_of_exponent_le hbase hnx1
    rw [Real.rpow_one] at h1
    have h0 : (0 : ℝ) < 20 ^ max 0 (min 1 ((x : ℝ) / (width : ℝ))) :=
      Real.rpow_pos_of_pos (by norm_num) _
    unfold kMinHz kMaxHz
    nlinarith
  · show (0 : ℝ) ≤ map_y_to_gain y height
    unfold map_y_to_gain
    rw [if_neg hyh]
    linarith
  · show map_y_to_gain y height ≤ 1
    unfold map_y_to_gain
    rw [if_neg hyh]
    linarith

/-- Concrete instance of C7 at the top-left corner of a 900×300 client. -/
theorem claim_C7_witness :
    kMinHz ≤ (onMouseMove defaultParams 0 0 900 300 false).targetHz ∧
    (onMouseMove defaultParams 0 0 900 300 false).targetHz ≤ kMaxHz ∧
    0 ≤ (onMouseMove defaultParams 0 0 900 300 false).targetGain ∧
    (onMouseMove defaultParams 0 0 900 300 false).targetGain ≤ 1 :=
  claim_C7 defaultParams 0 0 900 300 false (by norm_num) (by norm_num)

/-- Claim C8: the carrier frequency is
`smoothedHz · (1 + 0.01 · depth · sin(vibratoPhase))`, exactly unmodulated at
depth 0 and within ±1% at depth ≤ 1; the modulator increment is exactly
1.997 times the carrier increment; and the vibrato phase always advances by
the fixed 5.5 Hz step `2π·5.5·dt`. -/
theorem claim_C8 (sh d vp : ℝ) (hd0 : 0 ≤ d) (hd1 : d ≤ 1) (hsh : 0 ≤ sh) :
    carrierHz sh d vp = sh * (1 + 0.01 * d * Real.sin vp) ∧
    carrierHz sh 0 vp = sh ∧
    |carrierHz sh d vp - sh| ≤ 0.01 * sh ∧
    phaseIncB (carrierHz sh d vp) = 1.997 * phaseIncA (carrierHz sh d vp) ∧
    (∀ (p : SynthParams) (n : ℝ) (s : SynthState),
      (sampleStep p n s).state.vibratoPhase
        = wrapPhase (s.vibratoPhase + kTwoPi * 5.5 * dt)) := by
  refine ⟨?_, ?_, ?_, ?_, fun p n s => rfl⟩
  · unfold carrierHz vibratoVal
    by_cases h : d > 0
    · rw [if_pos h]
    · rw [if_neg h]
      have hd : d = 0 := le_antisymm (not_lt.mp h) hd0
      subst hd
      ring
  · unfold carrierHz vibratoVal
    norm_num
  · have hv := abs_vibratoVal_le d vp hd0 hd1
    have hdiff : carrierHz sh d vp - sh = sh * vibratoVal d vp := by
      unfold carrierHz; ring
    rw [hdiff, abs_mul, abs_of_nonneg hsh]
    nlinarith [abs_nonneg (vibratoVal d vp)]
  · unfold phaseIncA phaseIncB
    ring

/-- Concrete instance of C8 at 440 Hz, full depth, zero vibrato phase. -/
theorem claim_C8_witness :
    carrierHz 440 1 0 = 440 * (1 + 0.01 * 1 * Real.sin 0) ∧
    carrierHz 440 0 0 = 440 ∧
    |carrierHz 440 1 0 - 440| ≤ 0.01 * 440 ∧
    phaseIncB (carrierHz 440 1 0) = 1.997 * phaseIncA (carrierHz 440 1 0) ∧
    (∀ (p : SynthParams) (n : ℝ) (s : SynthState),
      (sampleStep p n s).state.vibratoPhase
        = wrapPhase (s.vibratoPhase + kTwoPi * 5.5 * dt)) :=
  claim_C8 440 1 0 (by norm_num) (by norm_num) (by norm_num)

/-- Claim C9: a wake in which the device reports zero free frames
(`bufferFrames - padding = 0`) synthesizes nothing, leaves the entire synth
runtime state unchanged, and the loop just continues waiting. -/
theorem claim_C9 (bufferFrames padding : ℕ) (inp : ℕ → SynthParams × ℝ)
    (s : SynthState) (h : bufferFrames - padding = 0) :
    renderWake bufferFrames padding inp s
      = (s, [], LoopAction.continueRunning) := by
  simp [renderWake, h]

/-- Concrete instance of C9: a full buffer (padding equals the buffer size)
at the initial state. -/
theorem claim_C9_witness :
    renderWake 8 8 (fun _ => (defaultParams, 0)) initState
      = (initState, [], LoopAction.continueRunning) :=
  claim_C9 8 8 (fun _ => (defaultParams, 0)) initState rfl

/-- The `size_t` cast of `48000 * 0.012f` is 576 samples. -/
lemma delaySamples_eq : delaySamples = 576 := by
  unfold delaySamples kSampleRate
  rw [show (48000 * 0.012 : ℝ) = 576 by norm_num]
  exact Nat.floor_ofNat 576

/-- One per-sample step preserves the delay-line invariant: `List.set` keeps
the lengths and the `%`-advance keeps the cursor in bounds. -/
lemma sampleStep_delayInv (p : SynthParams) (n : ℝ) (s : SynthState)
    (h : DelayInv s) : DelayInv (sampleStep p n s).state := by
  obtain ⟨hL, hR, hi⟩ := h
  have hpos : 0 < delaySamples := by rw [delaySamples_eq]; norm_num
  unfold DelayInv
  simp only [sampleStep, List.length_set]
  exact ⟨hL, hR, by rw [hL]; exact Nat.mod_lt _ hpos⟩

/-- The delay-line invariant holds after any number of steps. -/
lemma multiStep_delayInv (inputs : List (SynthParams × ℝ)) (s : SynthState)
    (h : DelayInv s) : DelayInv (multiStep inputs s) := by
  induction inputs generalizing s with
  | nil => exact h
  | cons head tail ih =>
    simpa [multiStep] using
      ih (sampleStep head.1 head.2 s).state
        (sampleStep_delayInv head.1 head.2 s h)

/-- The state set up at render-loop start satisfies the delay-line
invariant. -/
lemma initState_delayInv : DelayInv initState := by
  refine ⟨by simp [initState], by simp [initState], ?_⟩
  show (0 : ℕ) < delaySamples
  rw [delaySamples_eq]
  norm_num

/-- Claim C10: the delay buffers are built with length
`⌊48000 · 0.012⌋ = 576 ≥ 1`, every step keeps both lengths fixed and the
shared cursor strictly below them, so every delay-buffer access of the
per-sample path is in bounds, after any number of steps. -/
theorem claim_C10 (inputs : List (SynthParams × ℝ)) :
    1 ≤ delaySamples ∧
    (multiStep inputs initState).delayBufL.length = delaySamples ∧
    (multiStep inputs initState).delayBufR.length = delaySamples ∧
    (multiStep inputs initState).delayIndex
      < (multiStep inputs initState).delayBufL.length := by
  obtain ⟨h1, h2, h3⟩ := multiStep_delayInv inputs initState initState_delayInv
  refine ⟨by rw [delaySamples_eq]; norm_num, h1, h2, ?_⟩
  rw [h1]
  exact h3

end Theremin
